import Mathlib

/-!
Shallow embedding of `src/modules/fastqc/fastqc.py` from the OpenBioMCP
repository, together with theorems settling the specification claims about
the FastQC tool facade: file search (`find_fastq_files`), the run operation
(`fastqc`) and the installer (`install_fastqc`).

The external world (filesystem, `shutil.which` results, the ambient process
environment, and the behaviour of spawned child processes) is modelled as an
explicit state record; the Python functions become pure Lean functions of
that state.  `RuntimeError` raises become an `Except`-style error value.
-/

/-- Model of the filesystem as the module observes it: `pathExists` models
`os.path.exists`, and `entries` gives the file names contained in a
directory (what `glob.glob` enumerates for a pattern rooted at that
directory). -/
structure FileSystem where
  pathExists : String → Bool
  entries : String → List String

/-- Character-list test: the first list is a leading segment of the second
(used to model string prefix/suffix tests kernel-reducibly). -/
def leadsList : List Char → List Char → Bool
  | [], _ => true
  | _ :: _, [] => false
  | a :: as, b :: bs => a == b && leadsList as bs

/-- Character-list test: the first list is a trailing segment of the second. -/
def tailsList (a b : List Char) : Bool :=
  leadsList a.reverse b.reverse

/-- Character-list test: the first list occurs contiguously inside the
second (substring test). -/
def isSubOf : List Char → List Char → Bool
  | a, [] => leadsList a []
  | a, c :: rest => leadsList a (c :: rest) || isSubOf a rest

/-- Model of `os.path.join d f` on POSIX paths (the cases the module
exercises: absolute second component wins, otherwise a single separator is
inserted). -/
def joinPath (d f : String) : String :=
  if leadsList ['/'] f.toList then f
  else if d = "" then f
  else if tailsList ['/'] d.toList then d ++ f
  else d ++ "/" ++ f

/-- Model of `os.path.basename`: everything after the last slash. -/
def basenameStr (p : String) : String :=
  ((p.toList.reverse.takeWhile (fun c => c != '/')).reverse).asString

/-- Model of `os.path.dirname`: everything before the last slash, with
trailing slashes stripped unless the head consists only of slashes
(mirrors CPython's `posixpath.dirname`). -/
def dirnameStr (p : String) : String :=
  let cs := p.toList
  let base := cs.reverse.takeWhile (fun c => c != '/')
  let head := cs.take (cs.length - base.length)
  if head.isEmpty || head.all (fun c => c == '/') then head.asString
  else ((head.reverse.dropWhile (fun c => c == '/')).reverse).asString

/-- Index of the last `'.'` in a character list, if any. -/
def lastDotIdx : List Char → Option Nat
  | [] => none
  | c :: cs =>
    match lastDotIdx cs with
    | some i => some (i + 1)
    | none => if c == '.' then some 0 else none

/-- Model of the root part of `os.path.splitext` on a path without slashes:
cut at the last dot unless every character before it is itself a dot
(mirrors CPython's leading-dot rule, so `.bashrc` keeps its name). -/
def splitextRoot (cs : List Char) : List Char :=
  match lastDotIdx cs with
  | none => cs
  | some i => if (cs.take i).all (fun c => c == '.') then cs else cs.take i

/-- Does the string start with a dot (a hidden file)?  `glob` only matches
hidden names when the pattern itself starts with a dot. -/
def dotStart (s : String) : Bool :=
  leadsList ['.'] s.toList

/-- Does the string contain a glob metacharacter (`glob.has_magic`)? -/
def hasMagic (s : String) : Bool :=
  s.toList.any (fun c => c == '*' || c == '?' || c == '[')

/-- Glob pattern matcher for the patterns the module builds: `'*'` matches
any character sequence and `'?'` any single character (structural in the
pattern: a star tries every suffix of the text). -/
def globMatch : List Char → List Char → Bool
  | [], cs => cs.isEmpty
  | p :: ps, cs =>
    if p = '*' then cs.tails.any (fun t => globMatch ps t)
    else
      match cs with
      | [] => false
      | c :: cs2 => (p == c || p == '?') && globMatch ps cs2

/-- Model of `glob.glob (os.path.join dir npat)` for the shapes of pattern
the module builds: a pattern without metacharacters matches exactly when the
joined path exists; a pattern with metacharacters is matched against the
directory's entries, skipping hidden names unless the pattern starts with a
dot. -/
def glob1 (fs : FileSystem) (dir : String) (npat : String) : List String :=
  if hasMagic npat then
    ((fs.entries dir).filter
        (fun n => (dotStart npat || !dotStart n) && globMatch npat.toList n.toList)).map
      (fun n => joinPath dir n)
  else
    let p := joinPath dir npat
    if fs.pathExists p then [p] else []

/-- The patterns used when no filename is given: all FASTQ extensions. -/
def fastqPats : List String := ["*.fastq", "*.fq", "*.fastq.gz", "*.fq.gz"]

/-- The patterns used for a specific filename: the exact name, any name
containing it, and any name containing it with a FASTQ extension. -/
def namePats (f : String) : List String :=
  [f, "*" ++ f ++ "*", "*" ++ f ++ "*.fastq", "*" ++ f ++ "*.fq",
   "*" ++ f ++ "*.fastq.gz", "*" ++ f ++ "*.fq.gz"]

/-- Python truthiness of the optional filename argument (`if filename:`):
`None` and the empty string are falsy. -/
def optTruthy : Option String → Bool
  | none => false
  | some s => s != ""

/-- Pattern list chosen by `find_fastq_files` for a given filename
argument. -/
def patsFor (fn : Option String) : List String :=
  if optTruthy fn then namePats (fn.getD "") else fastqPats

/-- Concatenation of the lists produced by `f` over `l` (the repeated
`found_files.extend(...)` in the source). -/
def catMap {α β : Type} (f : α → List β) (l : List α) : List β :=
  (l.map f).flatten

/-- All matches contributed by one search directory: every pattern is
globbed and the results are concatenated in pattern order. -/
def dirMatches (fs : FileSystem) (dir : String) (fn : Option String) : List String :=
  catMap (fun p => glob1 fs dir p) (patsFor fn)

/-- Lexicographic comparison of character lists by code point, the order
Python's `sorted` uses on strings. -/
def charsLe : List Char → List Char → Bool
  | [], _ => true
  | _ :: _, [] => false
  | a :: as, b :: bs =>
    if a.toNat < b.toNat then true
    else if b.toNat < a.toNat then false
    else charsLe as bs

/-- String comparison: lexicographic by code point. -/
def strLe (a b : String) : Bool :=
  charsLe a.toList b.toList

/-- Insertion of a string into a sorted list (helper of `sortStrings`). -/
def insertStr (x : String) : List String → List String
  | [] => [x]
  | y :: ys => if strLe x y then x :: y :: ys else y :: insertStr x ys

/-- Model of Python's `sorted` on strings: insertion sort by `strLe`. -/
def sortStrings : List String → List String
  | [] => []
  | x :: xs => insertStr x (sortStrings xs)

/-- Sortedness predicate matching Python's `sorted` order: every element is
`strLe`-below all later ones. -/
def StrSorted (l : List String) : Prop :=
  l.Pairwise (fun a b => strLe a b = true)

instance (l : List String) : Decidable (StrSorted l) :=
  inferInstanceAs (Decidable (l.Pairwise fun a b => strLe a b = true))

/-- The search directories: the three fixed user directories plus the
current working directory when no directory is supplied, otherwise exactly
the supplied one. -/
def searchDirsOf (home cwd : String) (sd : Option String) : List String :=
  match sd with
  | none => [joinPath home "Downloads", joinPath home "Desktop",
             joinPath home "Documents", cwd]
  | some d => [d]

/-- Core of `find_fastq_files`: non-existing directories are skipped, each
existing directory contributes its pattern matches, and the result is the
deduplicated sorted list (`sorted(list(set(found_files)))`). -/
def searchIn (fs : FileSystem) (dirs : List String) (fn : Option String) : List String :=
  sortStrings ((catMap (fun d => if fs.pathExists d then dirMatches fs d fn else []) dirs).dedup)

/-- Model of `find_fastq_files(filename, search_dir)` from
`src/modules/fastqc/fastqc.py`.  `home` models `os.path.expanduser "~"` and
`cwd` models `os.getcwd()`. -/
def find_fastq_files (fs : FileSystem) (home cwd : String)
    (filename : Option String) (search_dir : Option String) : List String :=
  searchIn fs (searchDirsOf home cwd search_dir) filename

/-! ## The run operation `fastqc` -/

/-- Captured outcome of `subprocess.run`: exit status and the two captured
streams. -/
structure RunResult where
  returncode : Int
  stdout : String
  stderr : String

/-- Process environment mapping (a Python `dict` of variables). -/
def EnvMap : Type := String → Option String

/-- Record of one `subprocess.run` call: the argument vector, the
environment passed to the child, and the timeout argument (`none` models
Python's default `timeout=None`). -/
structure SpawnRecord where
  cmd : List String
  env : EnvMap
  timeout : Option Nat

/-- The external world as `fastqc` observes it: the filesystem, the homedir
and working directory, the two `shutil.which` lookups, the ambient process
environment `os.environ`, and the behaviour of a spawned child process
(`runProc cmd env` yields the captured result together with the filesystem
as it stands after the child exited). -/
structure SystemState where
  fs : FileSystem
  home : String
  cwd : String
  whichFastqc : Option String
  whichJava : Option String
  environ : EnvMap
  runProc : List String → EnvMap → RunResult × FileSystem

/-- The `RuntimeError` classes `fastqc` can raise, keyed by the message
format used at each raise site. -/
inductive FastqcError where
  /-- Input file unresolvable: `Could not find FASTQ file: ...` -/
  | notFound (path : String)
  /-- Tool absent everywhere: `FastQC not found. Please install FastQC.` -/
  | fastqcMissing
  /-- Located path vanished: `FastQC not found at ...` -/
  | fastqcMissingAt (path : String)
  /-- No usable Java runtime: `Java not found. ...` -/
  | javaMissing
  /-- Report absent after the run: `FastQC failed to create report: ...`
  carrying the diagnostic (captured stderr, or `Unknown error`). -/
  | executionFailed (diagnostic : String)
deriving DecidableEq

/-- Exact Python message text of each raise site, for reference. -/
def errorText : FastqcError → String
  | .notFound p => "Could not find FASTQ file: " ++ p
  | .fastqcMissing => "FastQC not found. Please install FastQC."
  | .fastqcMissingAt p => "FastQC not found at " ++ p ++ ". Please check your installation."
  | .javaMissing => "Java not found. Please install Java (JRE) to run FastQC."
  | .executionFailed d => "FastQC failed to create report: " ++ d

/-- Outcome of one `fastqc` call: the returned report path or the raised
error, the `subprocess.run` call if one was made, and its captured result. -/
structure FastqcOutcome where
  result : Except FastqcError String
  spawned : Option SpawnRecord
  runResult : Option RunResult

/-- The hard-coded fallback location of the FastQC executable. -/
def condaFastqcPath : String := "/opt/anaconda3/bin/fastqc"

/-- The hard-coded bundled Java executable checked first. -/
def condaJavaPath : String := "/opt/anaconda3/lib/jvm/bin/java"

/-- Directory of the bundled Java executable. -/
def condaJavaDir : String := "/opt/anaconda3/lib/jvm/bin"

/-- Installation root of the bundled Java runtime. -/
def condaJavaHome : String := "/opt/anaconda3/lib/jvm"

/-- Input-resolution step (lines 53-63): when the given path does not exist
and searching is enabled, search for it by name; an empty search result
raises, and otherwise the first found file is used (also when the search is
ambiguous). -/
def resolveInputPath (s : SystemState) (fastq_path : String)
    (search_if_not_found : Bool) : Except FastqcError String :=
  if !s.fs.pathExists fastq_path && search_if_not_found then
    match find_fastq_files s.fs s.home s.cwd (some fastq_path) none with
    | [] => .error (.notFound fastq_path)
    | f :: _ => .ok f
  else .ok fastq_path

/-- Executable-locator step (lines 64-72): the ambient search path first
(`shutil.which`), then the hard-coded conda fallback location. -/
def locateFastqc (whichF : Option String) (fs : FileSystem) : Except FastqcError String :=
  match whichF with
  | some p => .ok p
  | none =>
    if fs.pathExists condaFastqcPath then .ok condaFastqcPath
    else .error .fastqcMissing

/-- Runtime-resolution step (lines 80-93): the bundled conda Java is
preferred; otherwise ambient `java` is used when `shutil.which` finds it and
the found path exists; otherwise the call fails.  Returns the directory
prepended to the search path and the value stored into `JAVA_HOME`. -/
def resolveJava (whichJ : Option String) (fs : FileSystem) :
    Except FastqcError (String × String) :=
  if fs.pathExists condaJavaPath then .ok (condaJavaDir, condaJavaHome)
  else
    match whichJ with
    | some j => if fs.pathExists j then .ok (dirnameStr j, dirnameStr j) else .error .javaMissing
    | none => .error .javaMissing

/-- Environment overlay built for the child (lines 79, 95-96): a copy of the
ambient environment with `JAVA_HOME` set and the Java directory prepended to
`PATH` (an absent ambient `PATH` contributes the empty string via
`env.get('PATH', '')`). -/
def buildChildEnv (ambient : EnvMap) (java_dir java_home : String) : EnvMap :=
  fun k =>
    if k = "PATH" then some (java_dir ++ ":" ++ (ambient "PATH").getD "")
    else if k = "JAVA_HOME" then some java_home
    else ambient k

/-- Expected report path (lines 100-101): the input's basename with one
extension stripped, suffixed `_fastqc.html`, inside the output directory. -/
def reportPathFor (fastq_path : String) : String :=
  joinPath (dirnameStr fastq_path)
    ((splitextRoot (basenameStr fastq_path).toList).asString ++ "_fastqc.html")

/-- Execution and artifact-verification step (lines 76-105): run the tool
with the overlay environment and succeed exactly when the expected report
file exists afterwards, raising with the captured stderr (or `Unknown
error`) otherwise. -/
def fastqcRun (s : SystemState) (fp t jd jh : String) : FastqcOutcome × SystemState :=
  let cmd := [t, fp, "--outdir", dirnameStr fp]
  let env := buildChildEnv s.environ jd jh
  let pr := s.runProc cmd env
  let report := reportPathFor fp
  (⟨if pr.2.pathExists report then .ok report
    else .error (.executionFailed (if pr.1.stderr != "" then pr.1.stderr else "Unknown error")),
    some ⟨cmd, env, none⟩, some pr.1⟩,
   { s with fs := pr.2 })

/-- Model of `fastqc(fastq_path, search_if_not_found)` from
`src/modules/fastqc/fastqc.py`: input resolution, executable location, the
existence re-check of the located executable (line 74), Java resolution,
process execution and artifact verification.  The second component is the
world after the call (the calling process's own environment is part of it
and is never written by the code). -/
def fastqc (s : SystemState) (fastq_path : String) (search_if_not_found : Bool) :
    FastqcOutcome × SystemState :=
  match resolveInputPath s fastq_path search_if_not_found with
  | .error e => (⟨.error e, none, none⟩, s)
  | .ok fp =>
    match locateFastqc s.whichFastqc s.fs with
    | .error e => (⟨.error e, none, none⟩, s)
    | .ok t =>
      if s.fs.pathExists t then
        match resolveJava s.whichJava s.fs with
        | .error e => (⟨.error e, none, none⟩, s)
        | .ok (jd, jh) => fastqcRun s fp t jd jh
      else (⟨.error (.fastqcMissingAt t), none, none⟩, s)

/-- Timeout field of the spawn this outcome made, if any (closed observation
used to state claims about the timeout argument). -/
def spawnTimeout (o : FastqcOutcome) : Option (Option Nat) :=
  o.spawned.map SpawnRecord.timeout

/-! ## The install operation `install_fastqc` -/

/-- The external world as `install_fastqc` observes it: the platform name,
the four `shutil.which` lookups in program order (before and after each brew
attempt), and the behaviour of the two possible brew invocations — `.ok`
carries the captured (stdout, stderr) of a completed run, `.error` carries
the message of an exception raised by `subprocess.run` itself (no child ran). -/
structure InstallState where
  system : String
  whichJava1 : Option String
  whichJava2 : Option String
  whichFastqc1 : Option String
  whichFastqc2 : Option String
  brewJava : Except String (String × String)
  brewFastqc : Except String (String × String)

/-- The result dictionary of `install_fastqc`, with its exact fields. -/
structure InstallResult where
  java_installed : Bool := false
  java_install_attempted : Bool := false
  java_install_output : Option String := none
  fastqc_installed : Bool := false
  fastqc_install_attempted : Bool := false
  fastqc_install_output : Option String := none
  error : Option String := none
deriving DecidableEq

/-- Message returned when Java is missing on a non-Darwin platform. -/
def javaUnsupportedMsg : String :=
  "Automatic Java installation is only supported on macOS (Darwin) with Homebrew. Please install Java manually."

/-- Message returned when FastQC is missing on a non-Darwin platform. -/
def fastqcUnsupportedMsg : String :=
  "Automatic FastQC installation is only supported on macOS (Darwin) with Homebrew. Please install FastQC manually."

/-- Argument vector of the brew Java strategy. -/
def brewJavaCmd : List String := ["brew", "install", "openjdk"]

/-- Argument vector of the brew FastQC strategy. -/
def brewFastqcCmd : List String := ["brew", "install", "fastqc"]

/-- FastQC section of `install_fastqc` (lines 140-159), reached from every
path of the Java section except the non-Darwin missing-Java early return. -/
def installFastqcStep2 (s : InstallState) (r : InstallResult)
    (spawns : List (List String)) : InstallResult × List (List String) :=
  if s.whichFastqc1.isSome then ({ r with fastqc_installed := true }, spawns)
  else
    let r := { r with fastqc_install_attempted := true }
    if s.system = "Darwin" then
      match s.brewFastqc with
      | .ok (out, err) =>
        let r := { r with fastqc_install_output := some (out ++ "\n" ++ err) }
        let spawns := spawns ++ [brewFastqcCmd]
        if s.whichFastqc2.isSome then ({ r with fastqc_installed := true }, spawns)
        else (r, spawns)
      | .error e => ({ r with error := some ("Failed to install FastQC: " ++ e) }, spawns)
    else ({ r with error := some fastqcUnsupportedMsg }, spawns)

/-- Model of `install_fastqc()` from `src/modules/fastqc/fastqc.py`: check
Java, on Darwin try `brew install openjdk` when absent (continuing to the
FastQC section whatever happens), return immediately with an error on other
platforms; then the same for FastQC itself.  The second component lists the
argument vectors of the install subprocesses actually spawned, in order. -/
def install_fastqc (s : InstallState) : InstallResult × List (List String) :=
  let r : InstallResult := {}
  if s.whichJava1.isSome then installFastqcStep2 s { r with java_installed := true } []
  else
    let r := { r with java_install_attempted := true }
    if s.system = "Darwin" then
      match s.brewJava with
      | .ok (out, err) =>
        let r := { r with java_install_output := some (out ++ "\n" ++ err) }
        let r := if s.whichJava2.isSome then { r with java_installed := true } else r
        installFastqcStep2 s r [brewJavaCmd]
      | .error e => installFastqcStep2 s { r with error := some ("Failed to install Java: " ++ e) } []
    else ({ r with error := some javaUnsupportedMsg }, [])

/-! ## Definitions following the specification's words (for comparison) -/

/-- Modelled from the spec: the "installation root" of a Java runtime whose
executable lives in an installation's `bin` directory is the parent of that
`bin` directory (for the bundled runtime the code itself equates the two:
`/opt/anaconda3/lib/jvm` for `/opt/anaconda3/lib/jvm/bin/java`). -/
def specJavaInstallRoot (exe : String) : String :=
  dirnameStr (dirnameStr exe)

/-- Modelled from the spec: an attempt's captured output indicates an
environment-restriction refusal when it contains the marker text the
repository's documentation names (`externally-managed-environment`, PEP
668). -/
def specIsRestricted (out : String) : Bool :=
  isSubOf "externally-managed-environment".toList out.toList

/-! ## Concrete states used by witnesses and counterexamples -/

/-- Concrete scenario filesystem of C5: a `Downloads` directory holding the
paired-end files, listed in non-lexical order to exercise the sort. -/
def fsC5 : FileSystem :=
  ⟨fun p => p == "/Users/u/Downloads",
   fun d => if d == "/Users/u/Downloads" then ["reads_R2.fastq.gz", "reads_R1.fastq.gz"] else []⟩

/-- Concrete ambient environment with only a `PATH` entry. -/
def envW : EnvMap :=
  fun k => if k = "PATH" then some "/usr/bin" else none

/-- Filesystem before a successful run: the input file, the located tool and
the bundled Java executable exist. -/
def fsW1 : FileSystem :=
  ⟨fun p => p == "/data/sample.fastq" || p == "/usr/local/bin/fastqc" || p == condaJavaPath,
   fun _ => []⟩

/-- Filesystem after the child process ran: the report has been written. -/
def fsAfterW1 : FileSystem :=
  ⟨fun p => p == "/data/sample.fastq" || p == "/data/sample_fastqc.html", fun _ => []⟩

/-- World of the successful-run witness: FastQC on the search path, the
bundled Java present, and a child process that exits non-zero yet writes the
report. -/
def sW1 : SystemState :=
  ⟨fsW1, "/Users/u", "/work", some "/usr/local/bin/fastqc", none, envW,
   fun _ _ => (⟨1, "", "benign warning"⟩, fsAfterW1)⟩

/-- Spawn record produced by the run of `sW1`. -/
def rcdW1 : SpawnRecord :=
  ⟨["/usr/local/bin/fastqc", "/data/sample.fastq", "--outdir", "/data"],
   buildChildEnv envW condaJavaDir condaJavaHome, none⟩

/-- Filesystem in which the requested input file exists nowhere but the tool
and the bundled Java do. -/
def fsW2 : FileSystem :=
  ⟨fun p => p == "/usr/local/bin/fastqc" || p == condaJavaPath, fun _ => []⟩

/-- World of the missing-input counterexample: nothing matching the input
exists, yet tool and runtime resolve. -/
def sW2 : SystemState :=
  ⟨fsW2, "/Users/u", "/work", some "/usr/local/bin/fastqc", none, envW,
   fun _ _ => (⟨2, "", "analysis failed"⟩, fsW2)⟩

/-- Filesystem with only an ambient Java executable (no bundled runtime). -/
def fsW3 : FileSystem :=
  ⟨fun p => p == "/usr/lib/jvm/temurin/bin/java", fun _ => []⟩

/-- World where Java resolution must fall back to the ambient runtime. -/
def sW3 : SystemState :=
  ⟨fsW3, "/Users/u", "/work", some "/usr/local/bin/fastqc",
   some "/usr/lib/jvm/temurin/bin/java", envW,
   fun _ _ => (⟨0, "", ""⟩, fsW3)⟩

/-- Filesystem with input and tool but no Java anywhere. -/
def fsW4 : FileSystem :=
  ⟨fun p => p == "/data/sample.fastq" || p == "/usr/local/bin/fastqc", fun _ => []⟩

/-- World where no Java runtime is resolvable at all. -/
def sW4 : SystemState :=
  ⟨fsW4, "/Users/u", "/work", some "/usr/local/bin/fastqc", none, envW,
   fun _ _ => (⟨0, "", ""⟩, fsW4)⟩

/-- Install-state where the FastQC brew attempt's captured output carries
the environment-restriction marker. -/
def instW6a : InstallState :=
  ⟨"Darwin", some "/usr/bin/java", none, none, none, .ok ("", ""),
   .ok ("", "error: externally-managed-environment\n")⟩

/-- The same install-state with a benign captured output instead. -/
def instW6b : InstallState :=
  ⟨"Darwin", some "/usr/bin/java", none, none, none, .ok ("", ""), .ok ("", "ok")⟩

/-- Install-state on a non-Darwin platform with both tools already
present. -/
def instW7 : InstallState :=
  ⟨"Linux", some "/usr/bin/java", none, some "/usr/bin/fastqc", none,
   .ok ("", ""), .ok ("", "")⟩

/-- Install-state on a non-Darwin platform with FastQC missing. -/
def instW7b : InstallState :=
  ⟨"Linux", some "/usr/bin/java", none, none, none, .ok ("", ""), .ok ("", "")⟩

/-! ## Support lemmas -/

theorem charsLe_total (a : List Char) : ∀ b, charsLe a b = true ∨ charsLe b a = true := by
  induction a with
  | nil => intro b; left; rfl
  | cons x xs ih =>
    intro b
    cases b with
    | nil => right; rfl
    | cons y ys =>
      rcases Nat.lt_trichotomy x.toNat y.toNat with h | h | h
      · left; simp [charsLe, h]
      · rcases ih ys with hc | hc
        · left; simp [charsLe, h, hc]
        · right; simp [charsLe, h.symm, hc]
      · right; simp [charsLe, h]

theorem charsLe_trans (a : List Char) :
    ∀ b c, charsLe a b = true → charsLe b c = true → charsLe a c = true := by
  induction a with
  | nil => intro b c _ _; rfl
  | cons x xs ih =>
    intro b c h1 h2
    cases b with
    | nil => simp [charsLe] at h1
    | cons y ys =>
      cases c with
      | nil => simp [charsLe] at h2
      | cons z zs =>
        simp only [charsLe] at h1 h2 ⊢
        rcases Nat.lt_trichotomy x.toNat y.toNat with hxy | hxy | hxy
        · rcases Nat.lt_trichotomy y.toNat z.toNat with hyz | hyz | hyz
          · simp [show x.toNat < z.toNat by omega]
          · simp [show x.toNat < z.toNat by omega]
          · rw [if_neg (by omega), if_pos (by omega)] at h2; simp at h2
        · rcases Nat.lt_trichotomy y.toNat z.toNat with hyz | hyz | hyz
          · simp [show x.toNat < z.toNat by omega]
          · rw [if_neg (by omega), if_neg (by omega)] at h1
            rw [if_neg (by omega), if_neg (by omega)] at h2
            rw [if_neg (by omega), if_neg (by omega)]
            exact ih ys zs h1 h2
          · rw [if_neg (by omega), if_pos (by omega)] at h2; simp at h2
        · rw [if_neg (by omega), if_pos (by omega)] at h1; simp at h1

theorem strLe_total (a b : String) : strLe a b = true ∨ strLe b a = true :=
  charsLe_total _ _

theorem strLe_trans {a b c : String} (h1 : strLe a b = true) (h2 : strLe b c = true) :
    strLe a c = true :=
  charsLe_trans _ _ _ h1 h2

theorem insertStr_perm (x : String) (l : List String) : List.Perm (insertStr x l) (x :: l) := by
  induction l with
  | nil => exact List.Perm.refl _
  | cons y ys ih =>
    simp only [insertStr]
    split
    · exact List.Perm.refl _
    · exact (ih.cons y).trans (List.Perm.swap x y ys)

theorem sortStrings_perm (l : List String) : List.Perm (sortStrings l) l := by
  induction l with
  | nil => exact List.Perm.refl _
  | cons x xs ih => exact (insertStr_perm x (sortStrings xs)).trans (ih.cons x)

theorem mem_sortStrings {l : List String} {a : String} : a ∈ sortStrings l ↔ a ∈ l :=
  (sortStrings_perm l).mem_iff

theorem mem_insertStr {x : String} {l : List String} {a : String} :
    a ∈ insertStr x l ↔ a = x ∨ a ∈ l := by
  rw [(insertStr_perm x l).mem_iff, List.mem_cons]

theorem insertStr_sorted (x : String) {l : List String} (h : StrSorted l) :
    StrSorted (insertStr x l) := by
  induction l with
  | nil => simp [insertStr, StrSorted]
  | cons y ys ih =>
    rw [StrSorted, List.pairwise_cons] at h
    obtain ⟨hy, hys⟩ := h
    by_cases hxy : strLe x y = true
    · simp only [insertStr, if_pos hxy, StrSorted, List.pairwise_cons]
      refine ⟨?_, hy, hys⟩
      intro z hz
      rcases List.mem_cons.mp hz with rfl | hz
      · exact hxy
      · exact strLe_trans hxy (hy z hz)
    · have hyx : strLe y x = true := (strLe_total x y).resolve_left hxy
      simp only [insertStr, if_neg hxy, StrSorted, List.pairwise_cons]
      refine ⟨?_, ih hys⟩
      intro z hz
      rcases mem_insertStr.mp hz with rfl | hz
      · exact hyx
      · exact hy z hz

theorem sortStrings_sorted (l : List String) : StrSorted (sortStrings l) := by
  induction l with
  | nil => simp [sortStrings, StrSorted]
  | cons x xs ih => exact insertStr_sorted x ih

theorem sortStrings_nodup {l : List String} (h : l.Nodup) : (sortStrings l).Nodup :=
  (sortStrings_perm l).nodup_iff.mpr h

theorem mem_catMap {α β : Type} (f : α → List β) (l : List α) (b : β) :
    b ∈ catMap f l ↔ ∃ a ∈ l, b ∈ f a := by
  simp [catMap]

theorem searchIn_sorted (fs : FileSystem) (dirs : List String) (fn : Option String) :
    StrSorted (searchIn fs dirs fn) :=
  sortStrings_sorted _

theorem searchIn_nodup (fs : FileSystem) (dirs : List String) (fn : Option String) :
    (searchIn fs dirs fn).Nodup :=
  sortStrings_nodup (List.nodup_dedup _)

theorem mem_searchIn {fs : FileSystem} {dirs : List String} {fn : Option String} {p : String} :
    p ∈ searchIn fs dirs fn ↔
      ∃ d ∈ dirs, fs.pathExists d = true ∧ p ∈ dirMatches fs d fn := by
  rw [searchIn, mem_sortStrings, List.mem_dedup, mem_catMap]
  constructor
  · rintro ⟨d, hd, hp⟩
    by_cases hx : fs.pathExists d
    · exact ⟨d, hd, hx, by rwa [if_pos hx] at hp⟩
    · rw [if_neg hx] at hp; cases hp
  · rintro ⟨d, hd, hx, hp⟩
    exact ⟨d, hd, by rwa [if_pos hx]⟩

theorem leadsList_iff (a : List Char) : ∀ b, leadsList a b = true ↔ ∃ t, b = a ++ t := by
  induction a with
  | nil => intro b; simp [leadsList]
  | cons x xs ih =>
    intro b
    cases b with
    | nil => simp [leadsList]
    | cons y ys =>
      simp only [leadsList, Bool.and_eq_true, beq_iff_eq, ih ys]
      constructor
      · rintro ⟨rfl, t, rfl⟩; exact ⟨t, rfl⟩
      · rintro ⟨t, ht⟩
        rw [List.cons_append] at ht
        injection ht with h1 h2
        exact ⟨h1.symm, t, h2⟩

theorem tailsList_ex {a b : List Char} (h : tailsList a b = true) : ∃ s, b = s ++ a := by
  obtain ⟨t, ht⟩ := (leadsList_iff a.reverse b.reverse).mp h
  refine ⟨t.reverse, ?_⟩
  have := congrArg List.reverse ht
  simpa using this

theorem isSubOf_ex {a : List Char} : ∀ {b}, isSubOf a b = true → ∃ s t, b = s ++ a ++ t := by
  intro b
  induction b with
  | nil =>
    intro h
    obtain ⟨t, ht⟩ := (leadsList_iff a []).mp h
    rcases List.append_eq_nil.mp ht.symm with ⟨rfl, rfl⟩
    exact ⟨[], [], rfl⟩
  | cons c rest ih =>
    intro h
    simp only [isSubOf, Bool.or_eq_true] at h
    rcases h with h | h
    · obtain ⟨t, ht⟩ := (leadsList_iff a (c :: rest)).mp h
      exact ⟨[], t, by simpa using ht⟩
    · obtain ⟨s, t, hst⟩ := ih h
      exact ⟨c :: s, t, by simp [hst]⟩

theorem gm_star_any {ps n t : List Char} (ht : t <:+ n) (h : globMatch ps t = true) :
    globMatch ('*' :: ps) n = true := by
  have he : globMatch ('*' :: ps) n = n.tails.any (fun t => globMatch ps t) := by
    simp [globMatch]
  rw [he, List.any_eq_true]
  exact ⟨t, (List.mem_tails _ _).mpr ht, h⟩

theorem gm_exact : ∀ {f : List Char}, '*' ∉ f → globMatch f f = true := by
  intro f
  induction f with
  | nil => intro _; rfl
  | cons c cs ih =>
    intro hf
    have hc : c ≠ '*' := fun h => hf (h ▸ List.mem_cons_self c cs)
    simp only [globMatch, if_neg hc]
    simp [ih (fun h => hf (List.mem_cons_of_mem c h))]

theorem gm_plain_star {f : List Char} (b : List Char) (hf : '*' ∉ f) :
    globMatch (f ++ ['*']) (f ++ b) = true := by
  induction f with
  | nil =>
    rw [List.nil_append]
    exact gm_star_any List.nil_suffix rfl
  | cons c cs ih =>
    have hc : c ≠ '*' := fun h => hf (h ▸ List.mem_cons_self c cs)
    simp only [List.cons_append, globMatch, if_neg hc]
    simp [ih (fun h => hf (List.mem_cons_of_mem c h))]

theorem gm_sub_star {f n : List Char} (hf : '*' ∉ f) (s t : List Char)
    (hn : n = s ++ f ++ t) : globMatch ('*' :: (f ++ ['*'])) n = true := by
  refine gm_star_any ⟨s, ?_⟩ (gm_plain_star t hf)
  rw [hn, List.append_assoc]

theorem gm_suffix_star {f n : List Char} (hf : '*' ∉ f) (s : List Char)
    (hn : n = s ++ f) : globMatch ('*' :: f) n = true :=
  gm_star_any ⟨s, hn.symm⟩ (gm_exact hf)

theorem star_wrap_data (f : String) : ("*" ++ f ++ "*").toList = '*' :: (f.toList ++ ['*']) := by
  show ("*" ++ f ++ "*").data = _
  rw [String.data_append, String.data_append]
  rfl

theorem hasMagic_star_wrap (f : String) : hasMagic ("*" ++ f ++ "*") = true := by
  unfold hasMagic
  rw [star_wrap_data, List.any_eq_true]
  exact ⟨'*', List.mem_cons_self _ _, by decide⟩

theorem dotStart_star_wrap (f : String) : dotStart ("*" ++ f ++ "*") = false := by
  show leadsList ['.'] (("*" ++ f ++ "*").toList) = false
  rw [star_wrap_data]
  rfl

theorem no_star_of_not_magic {f : String} (h : hasMagic f = false) : '*' ∉ f.toList := by
  intro hc
  have ht : hasMagic f = true := by
    unfold hasMagic
    rw [List.any_eq_true]
    exact ⟨'*', hc, by decide⟩
  rw [h] at ht
  exact Bool.false_ne_true ht

theorem mem_glob1_magic {fs : FileSystem} {dir npat n : String}
    (hm : hasMagic npat = true) (hn : n ∈ fs.entries dir)
    (hh : (dotStart npat || !dotStart n) = true)
    (hmt : globMatch npat.toList n.toList = true) :
    joinPath dir n ∈ glob1 fs dir npat := by
  rw [glob1, if_pos hm]
  refine List.mem_map_of_mem _ (List.mem_filter.mpr ⟨hn, ?_⟩)
  show ((dotStart npat || !dotStart n) && globMatch npat.toList n.toList) = true
  rw [hh, hmt]
  rfl

theorem mem_dirMatches {fs : FileSystem} {dir : String} {fn : Option String}
    {p : String} (pat : String) (hp : pat ∈ patsFor fn) (hg : p ∈ glob1 fs dir pat) :
    p ∈ dirMatches fs dir fn :=
  (mem_catMap _ _ _).mpr ⟨pat, hp, hg⟩

/-! ## Claims C5 and C10 -/

/-- C5: with no search directory supplied, `find_fastq_files` scans exactly
`~/Downloads`, `~/Desktop`, `~/Documents` and the working directory in that
order; a visible file whose name contains the requested filename as a
substring is matched (and a visible FASTQ-extension file when no filename is
given); the result is deduplicated and sorted; and on the concrete `reads`
scenario both paired-end files come back in lexical order. -/
theorem find_fastq_files_C5 :
    (∀ (fs : FileSystem) (home cwd : String) (fn : Option String),
        find_fastq_files fs home cwd fn none =
          searchIn fs [joinPath home "Downloads", joinPath home "Desktop",
                       joinPath home "Documents", cwd] fn) ∧
    (∀ (fs : FileSystem) (dirs : List String) (d f n : String),
        d ∈ dirs → fs.pathExists d = true → n ∈ fs.entries d → f ≠ "" →
        hasMagic f = false → dotStart n = false → isSubOf f.toList n.toList = true →
        joinPath d n ∈ searchIn fs dirs (some f)) ∧
    (∀ (fs : FileSystem) (dirs : List String) (d n : String),
        d ∈ dirs → fs.pathExists d = true → n ∈ fs.entries d →
        dotStart n = false → tailsList ".fastq".toList n.toList = true →
        joinPath d n ∈ searchIn fs dirs none) ∧
    (∀ (fs : FileSystem) (dirs : List String) (fn : Option String),
        StrSorted (searchIn fs dirs fn) ∧ (searchIn fs dirs fn).Nodup) ∧
    (find_fastq_files fsC5 "/Users/u" "/work" (some "reads") none =
        ["/Users/u/Downloads/reads_R1.fastq.gz", "/Users/u/Downloads/reads_R2.fastq.gz"]) := by
  refine ⟨fun _ _ _ _ => rfl, ?_, ?_,
    fun fs dirs fn => ⟨searchIn_sorted fs dirs fn, searchIn_nodup fs dirs fn⟩, by decide⟩
  · intro fs dirs d f n hd hx hn hf hm hdot hsub
    rw [mem_searchIn]
    refine ⟨d, hd, hx, ?_⟩
    refine mem_dirMatches ("*" ++ f ++ "*") ?_ ?_
    · have ht : optTruthy (some f) = true := by
        simp [optTruthy, hf]
      rw [patsFor, if_pos ht]
      simp [namePats]
    · refine mem_glob1_magic (hasMagic_star_wrap f) hn
        (by simp [dotStart_star_wrap, hdot]) ?_
      rw [star_wrap_data]
      obtain ⟨s, t, hst⟩ := isSubOf_ex hsub
      exact gm_sub_star (no_star_of_not_magic hm) s t hst
  · intro fs dirs d n hd hx hn hdot htail
    rw [mem_searchIn]
    refine ⟨d, hd, hx, ?_⟩
    refine mem_dirMatches "*.fastq" ?_ ?_
    · simp [patsFor, optTruthy, fastqPats]
    · refine mem_glob1_magic (by decide) hn (by simp [hdot]) ?_
      have h1 : "*.fastq".toList = '*' :: ".fastq".toList := by decide
      rw [h1]
      obtain ⟨s, hs⟩ := tailsList_ex htail
      exact gm_suffix_star (by decide) s hs

/-- C5 witness: the substring-match clause applied at the concrete scenario
directory. -/
theorem find_fastq_files_C5_witness :
    joinPath "/Users/u/Downloads" "reads_R1.fastq.gz" ∈
      searchIn fsC5 ["/Users/u/Downloads"] (some "reads") :=
  find_fastq_files_C5.2.1 fsC5 ["/Users/u/Downloads"] "/Users/u/Downloads" "reads"
    "reads_R1.fastq.gz" (by decide) (by decide) (by decide) (by decide) (by decide)
    (by decide) (by decide)

/-- C10: for every filename argument (including none) and search-directory
argument (including none), `find_fastq_files` returns a list sorted in
ascending lexical order without duplicates, and every entry comes from an
existing search directory (non-existing directories contribute nothing). -/
theorem find_fastq_files_C10 (fs : FileSystem) (home cwd : String) (fn sd : Option String) :
    StrSorted (find_fastq_files fs home cwd fn sd) ∧
    (find_fastq_files fs home cwd fn sd).Nodup ∧
    ∀ p, p ∈ find_fastq_files fs home cwd fn sd →
      ∃ d ∈ searchDirsOf home cwd sd, fs.pathExists d = true ∧ p ∈ dirMatches fs d fn :=
  ⟨searchIn_sorted fs (searchDirsOf home cwd sd) fn,
   searchIn_nodup fs (searchDirsOf home cwd sd) fn,
   fun _ hp => mem_searchIn.mp hp⟩

/-- C10 witness: the guarantees evaluated on the concrete scenario state,
with the membership clause applied to a concrete returned entry. -/
theorem find_fastq_files_C10_witness :
    StrSorted (find_fastq_files fsC5 "/Users/u" "/work" (some "reads") none) ∧
    (find_fastq_files fsC5 "/Users/u" "/work" (some "reads") none).Nodup ∧
    ∃ d ∈ searchDirsOf "/Users/u" "/work" none, fsC5.pathExists d = true ∧
      "/Users/u/Downloads/reads_R1.fastq.gz" ∈ dirMatches fsC5 d (some "reads") := by
  have h := find_fastq_files_C10 fsC5 "/Users/u" "/work" (some "reads") none
  exact ⟨h.1, h.2.1, h.2.2 "/Users/u/Downloads/reads_R1.fastq.gz" (by decide)⟩

/-! ## Branch lemmas for `fastqc` -/

theorem fastqc_eq_of_input_error {s : SystemState} {p : String} {b : Bool} {e : FastqcError}
    (h1 : resolveInputPath s p b = .error e) :
    fastqc s p b = (⟨.error e, none, none⟩, s) := by
  unfold fastqc
  rw [h1]

theorem fastqc_eq_of_locate_error {s : SystemState} {p : String} {b : Bool} {fp : String}
    {e : FastqcError} (h1 : resolveInputPath s p b = .ok fp)
    (h2 : locateFastqc s.whichFastqc s.fs = .error e) :
    fastqc s p b = (⟨.error e, none, none⟩, s) := by
  unfold fastqc
  rw [h1, h2]

theorem fastqc_eq_of_tool_gone {s : SystemState} {p : String} {b : Bool} {fp t : String}
    (h1 : resolveInputPath s p b = .ok fp)
    (h2 : locateFastqc s.whichFastqc s.fs = .ok t)
    (h3 : s.fs.pathExists t = false) :
    fastqc s p b = (⟨.error (.fastqcMissingAt t), none, none⟩, s) := by
  unfold fastqc
  rw [h1, h2]
  simp [h3]

theorem fastqc_eq_of_java_error {s : SystemState} {p : String} {b : Bool} {fp t : String}
    {e : FastqcError} (h1 : resolveInputPath s p b = .ok fp)
    (h2 : locateFastqc s.whichFastqc s.fs = .ok t)
    (h3 : s.fs.pathExists t = true)
    (h4 : resolveJava s.whichJava s.fs = .error e) :
    fastqc s p b = (⟨.error e, none, none⟩, s) := by
  unfold fastqc
  rw [h1, h2, h4]
  simp [h3]

theorem fastqc_eq_of_resolved {s : SystemState} {p : String} {b : Bool} {fp t jd jh : String}
    (h1 : resolveInputPath s p b = .ok fp)
    (h2 : locateFastqc s.whichFastqc s.fs = .ok t)
    (h3 : s.fs.pathExists t = true)
    (h4 : resolveJava s.whichJava s.fs = .ok (jd, jh)) :
    fastqc s p b = fastqcRun s fp t jd jh := by
  unfold fastqc
  rw [h1, h2, h4]
  simp [h3]

/-! ## Claim C1 -/

/-- C1: once the invocation reaches execution, success is decided solely by
the existence of the expected report file after the child ran — the exit
status never enters the decision.  When the report exists the call returns
its path; when it is absent the call fails with the captured stderr as
diagnostic, or `Unknown error` if stderr is empty. -/
theorem fastqc_C1 (s : SystemState) (p : String) (b : Bool) (fp t jd jh : String)
    (h1 : resolveInputPath s p b = .ok fp)
    (h2 : locateFastqc s.whichFastqc s.fs = .ok t)
    (h3 : s.fs.pathExists t = true)
    (h4 : resolveJava s.whichJava s.fs = .ok (jd, jh)) :
    ((s.runProc [t, fp, "--outdir", dirnameStr fp] (buildChildEnv s.environ jd jh)).2.pathExists
        (reportPathFor fp) = true →
      (fastqc s p b).1.result = .ok (reportPathFor fp)) ∧
    ((s.runProc [t, fp, "--outdir", dirnameStr fp] (buildChildEnv s.environ jd jh)).2.pathExists
        (reportPathFor fp) = false →
      (fastqc s p b).1.result = .error (.executionFailed
        (if (s.runProc [t, fp, "--outdir", dirnameStr fp]
              (buildChildEnv s.environ jd jh)).1.stderr != "" then
          (s.runProc [t, fp, "--outdir", dirnameStr fp]
            (buildChildEnv s.environ jd jh)).1.stderr
        else "Unknown error"))) := by
  rw [fastqc_eq_of_resolved h1 h2 h3 h4]
  constructor <;> intro h5 <;> simp [fastqcRun, h5]

/-- C1 witness: a child that exits non-zero yet writes the report yields the
report path (the captured exit status is 1), and a child that exits without
writing the report yields the execution failure carrying its stderr. -/
theorem fastqc_C1_witness :
    (fastqc sW1 "/data/sample.fastq" true).1.result = .ok "/data/sample_fastqc.html" ∧
    (fastqc sW1 "/data/sample.fastq" true).1.runResult = some ⟨1, "", "benign warning"⟩ ∧
    (fastqc sW2 "/x/missing.fastq" false).1.result =
      .error (.executionFailed "analysis failed") := by
  refine ⟨?_, rfl, ?_⟩
  · exact (fastqc_C1 sW1 "/data/sample.fastq" true "/data/sample.fastq"
      "/usr/local/bin/fastqc" condaJavaDir condaJavaHome rfl rfl rfl rfl).1 (by decide)
  · exact (fastqc_C1 sW2 "/x/missing.fastq" false "/x/missing.fastq"
      "/usr/local/bin/fastqc" condaJavaDir condaJavaHome rfl rfl rfl rfl).2 (by decide)

/-! ## Claim C2 -/

/-- C2 counterexample: with `search_if_not_found = false` and a path that
exists nowhere, a child process is nevertheless spawned — refuting the
claim's assertion that a NotFound error is reported and no process spawned
for both values of the parameter. -/
theorem fastqc_C2_counterexample :
    sW2.fs.pathExists "/x/missing.fastq" = false ∧
    ((fastqc sW2 "/x/missing.fastq" false).1.spawned).isSome = true := by
  exact ⟨rfl, rfl⟩

/-- C2 amended: with searching enabled (the default), an input path that
does not exist and that the file search cannot resolve yields the NotFound
error and no child process is spawned. -/
theorem fastqc_C2_amended (s : SystemState) (p : String)
    (h1 : s.fs.pathExists p = false)
    (h2 : find_fastq_files s.fs s.home s.cwd (some p) none = []) :
    (fastqc s p true).1.result = .error (.notFound p) ∧
    (fastqc s p true).1.spawned = none := by
  have hin : resolveInputPath s p true = .error (.notFound p) := by
    unfold resolveInputPath
    rw [h1, h2]
    rfl
  rw [fastqc_eq_of_input_error hin]
  exact ⟨rfl, rfl⟩

/-- C2 witness: the amended statement evaluated at a concrete world holding
neither the input nor anything matching it. -/
theorem fastqc_C2_witness :
    (fastqc sW2 "/x/missing.fastq" true).1.result = .error (.notFound "/x/missing.fastq") ∧
    (fastqc sW2 "/x/missing.fastq" true).1.spawned = none :=
  fastqc_C2_amended sW2 "/x/missing.fastq" (by decide) (by decide)

/-! ## Claim C3 -/

/-- C3 counterexample: when the bundled runtime is absent and ambient `java`
is found at `/usr/lib/jvm/temurin/bin/java`, the value stored into
`JAVA_HOME` is the `bin` directory that contains the executable, not the
runtime's installation root — refuting the claim that `JAVA_HOME` is always
set to the installation root. -/
theorem fastqc_C3_counterexample :
    resolveJava sW3.whichJava sW3.fs =
      .ok ("/usr/lib/jvm/temurin/bin", "/usr/lib/jvm/temurin/bin") ∧
    specJavaInstallRoot "/usr/lib/jvm/temurin/bin/java" = "/usr/lib/jvm/temurin" ∧
    "/usr/lib/jvm/temurin/bin" ≠ "/usr/lib/jvm/temurin" :=
  ⟨rfl, rfl, by decide⟩

/-- C3 amended: the bundled conda runtime is preferred whenever its
executable exists (whatever the ambient lookup would say), the overlay
prepends the runtime directory to `PATH` and stores the resolved runtime
home into `JAVA_HOME` leaving all other variables untouched; the fallback
stores the directory containing the ambient executable (not its installation
root); and when no runtime resolves, an invocation that had resolved its
input and located the tool fails with the Java-missing error without
spawning any process. -/
theorem fastqc_C3 (s : SystemState) :
    (s.fs.pathExists condaJavaPath = true →
        resolveJava s.whichJava s.fs = .ok (condaJavaDir, condaJavaHome)) ∧
    (∀ (ev : EnvMap) (jd jh : String),
        buildChildEnv ev jd jh "PATH" = some (jd ++ ":" ++ (ev "PATH").getD "") ∧
        buildChildEnv ev jd jh "JAVA_HOME" = some jh ∧
        ∀ k, k ≠ "PATH" → k ≠ "JAVA_HOME" → buildChildEnv ev jd jh k = ev k) ∧
    (s.fs.pathExists condaJavaPath = false →
        ∀ j, s.whichJava = some j → s.fs.pathExists j = true →
        resolveJava s.whichJava s.fs = .ok (dirnameStr j, dirnameStr j)) ∧
    (∀ (p : String) (b : Bool) (fp t : String),
        resolveInputPath s p b = .ok fp →
        locateFastqc s.whichFastqc s.fs = .ok t →
        s.fs.pathExists t = true →
        resolveJava s.whichJava s.fs = .error .javaMissing →
        (fastqc s p b).1.result = .error .javaMissing ∧
        (fastqc s p b).1.spawned = none) := by
  refine ⟨?_, ?_, ?_, ?_⟩
  · intro h
    unfold resolveJava
    rw [h]
    rfl
  · intro ev jd jh
    refine ⟨rfl, rfl, ?_⟩
    intro k hk1 hk2
    unfold buildChildEnv
    rw [if_neg hk1, if_neg hk2]
  · intro h j hj hx
    unfold resolveJava
    rw [h, hj]
    simp [hx]
  · intro p b fp t h1 h2 h3 h4
    rw [fastqc_eq_of_java_error h1 h2 h3 h4]
    exact ⟨rfl, rfl⟩

/-- C3 witness: the bundled runtime wins in a world where it exists, the
overlay fields are as stated, and a world with no Java at all produces the
Java-missing failure without a spawn. -/
theorem fastqc_C3_witness :
    resolveJava sW1.whichJava sW1.fs = .ok (condaJavaDir, condaJavaHome) ∧
    buildChildEnv envW condaJavaDir condaJavaHome "JAVA_HOME" = some condaJavaHome ∧
    (fastqc sW4 "/data/sample.fastq" true).1.result = .error .javaMissing ∧
    (fastqc sW4 "/data/sample.fastq" true).1.spawned = none := by
  have h4 := (fastqc_C3 sW4).2.2.2 "/data/sample.fastq" true "/data/sample.fastq"
    "/usr/local/bin/fastqc" rfl rfl rfl rfl
  exact ⟨(fastqc_C3 sW1).1 rfl,
    ((fastqc_C3 sW1).2.1 envW condaJavaDir condaJavaHome).2.1, h4.1, h4.2⟩

/-! ## Claim C4 -/

/-- C4: the executable locator consults the ambient search path first and
the conda fallback second; a hit on the search path makes the result
independent of the filesystem (the fallback is never consulted); with no hit
anywhere the tool is reported missing; and every located path exists
(assuming, as `shutil.which` guarantees, that a search-path hit exists). -/
theorem fastqc_C4 (whichF : Option String) (fs : FileSystem)
    (hw : ∀ q, whichF = some q → fs.pathExists q = true) :
    (∀ q, whichF = some q → ∀ fs2 : FileSystem, locateFastqc whichF fs2 = .ok q) ∧
    (whichF = none → fs.pathExists condaFastqcPath = true →
        locateFastqc whichF fs = .ok condaFastqcPath) ∧
    (whichF = none → fs.pathExists condaFastqcPath = false →
        locateFastqc whichF fs = .error .fastqcMissing) ∧
    (∀ q, locateFastqc whichF fs = .ok q → fs.pathExists q = true) := by
  refine ⟨?_, ?_, ?_, ?_⟩
  · intro q h fs2
    subst h
    rfl
  · intro h hc
    subst h
    unfold locateFastqc
    rw [hc]
    rfl
  · intro h hc
    subst h
    unfold locateFastqc
    rw [hc]
    rfl
  · intro q h
    cases hwf : whichF with
    | some r =>
      rw [hwf] at h
      unfold locateFastqc at h
      injection h with h
      subst h
      exact hw r hwf
    | none =>
      rw [hwf] at h
      unfold locateFastqc at h
      by_cases hc : fs.pathExists condaFastqcPath = true
      · rw [hc] at h
        simp only [if_pos rfl] at h
        injection h with h
        subst h
        exact hc
      · have hc2 : fs.pathExists condaFastqcPath = false := by
          simpa using hc
        rw [hc2] at h
        simp at h

/-- C4 witness: the locator applied to a world where the tool sits on the
search path. -/
theorem fastqc_C4_witness :
    locateFastqc (some "/usr/local/bin/fastqc") fsW1 = .ok "/usr/local/bin/fastqc" ∧
    fsW1.pathExists "/usr/local/bin/fastqc" = true := by
  have hw : ∀ q, (some "/usr/local/bin/fastqc" : Option String) = some q →
      fsW1.pathExists q = true := by
    intro q h
    injection h with h
    rw [← h]
    rfl
  exact ⟨(fastqc_C4 _ fsW1 hw).1 _ rfl fsW1,
    (fastqc_C4 _ fsW1 hw).2.2.2 _ ((fastqc_C4 _ fsW1 hw).1 _ rfl fsW1)⟩

/-! ## Claim C8 -/

/-- C8: a `fastqc` call never mutates the ambient environment of the calling
process — the world after the call carries the same `environ` — and any
spawned child receives a freshly built overlay: the ambient environment plus
the `PATH` and `JAVA_HOME` modifications from the resolved runtime. -/
theorem fastqc_C8 (s : SystemState) (p : String) (b : Bool) :
    (fastqc s p b).2.environ = s.environ ∧
    ∀ rcd, (fastqc s p b).1.spawned = some rcd →
      ∃ jd jh, resolveJava s.whichJava s.fs = .ok (jd, jh) ∧
        rcd.env = buildChildEnv s.environ jd jh := by
  cases h1 : resolveInputPath s p b with
  | error e =>
    rw [fastqc_eq_of_input_error h1]
    exact ⟨rfl, fun rcd hr => by simp at hr⟩
  | ok fp =>
    cases h2 : locateFastqc s.whichFastqc s.fs with
    | error e =>
      rw [fastqc_eq_of_locate_error h1 h2]
      exact ⟨rfl, fun rcd hr => by simp at hr⟩
    | ok t =>
      by_cases h3 : s.fs.pathExists t = true
      · cases h4 : resolveJava s.whichJava s.fs with
        | error e =>
          rw [fastqc_eq_of_java_error h1 h2 h3 h4]
          exact ⟨rfl, fun rcd hr => by simp at hr⟩
        | ok pr =>
          obtain ⟨jd, jh⟩ := pr
          rw [fastqc_eq_of_resolved h1 h2 h3 h4]
          refine ⟨rfl, ?_⟩
          intro rcd hr
          have hr2 : (some (⟨[t, fp, "--outdir", dirnameStr fp],
              buildChildEnv s.environ jd jh, none⟩ : SpawnRecord)) = some rcd := hr
          injection hr2 with hr2
          exact ⟨jd, jh, rfl, by rw [← hr2]⟩
      · have h3f : s.fs.pathExists t = false := by simpa using h3
        rw [fastqc_eq_of_tool_gone h1 h2 h3f]
        exact ⟨rfl, fun rcd hr => by simp at hr⟩

/-- C8 witness: the successful concrete run leaves the ambient environment
untouched and its spawn received the overlay built from the ambient
environment. -/
theorem fastqc_C8_witness :
    (fastqc sW1 "/data/sample.fastq" true).2.environ = envW ∧
    (∃ jd jh, resolveJava sW1.whichJava sW1.fs = .ok (jd, jh) ∧
      rcdW1.env = buildChildEnv envW jd jh) := by
  have h := fastqc_C8 sW1 "/data/sample.fastq" true
  exact ⟨h.1, h.2 rcdW1 rfl⟩

/-! ## Claim C9 -/

/-- C9 counterexample: a complete concrete invocation spawns its child with
`timeout = none` — `subprocess.run` is called without any timeout argument,
so no caller-supplied timeout exists and no Timeout outcome can arise. -/
theorem fastqc_C9_counterexample :
    spawnTimeout (fastqc sW1 "/data/sample.fastq" true).1 = some none :=
  rfl

/-- C9 amended: `fastqc` accepts no timeout parameter and every child
process it ever spawns is started with `timeout = none`, so the call can
block for as long as the child runs and never reports a Timeout outcome. -/
theorem fastqc_C9_amended (s : SystemState) (p : String) (b : Bool) :
    ∀ rcd, (fastqc s p b).1.spawned = some rcd → rcd.timeout = none := by
  cases h1 : resolveInputPath s p b with
  | error e =>
    rw [fastqc_eq_of_input_error h1]
    intro rcd hr
    simp at hr
  | ok fp =>
    cases h2 : locateFastqc s.whichFastqc s.fs with
    | error e =>
      rw [fastqc_eq_of_locate_error h1 h2]
      intro rcd hr
      simp at hr
    | ok t =>
      by_cases h3 : s.fs.pathExists t = true
      · cases h4 : resolveJava s.whichJava s.fs with
        | error e =>
          rw [fastqc_eq_of_java_error h1 h2 h3 h4]
          intro rcd hr
          simp at hr
        | ok pr =>
          obtain ⟨jd, jh⟩ := pr
          rw [fastqc_eq_of_resolved h1 h2 h3 h4]
          intro rcd hr
          have hr2 : (some (⟨[t, fp, "--outdir", dirnameStr fp],
              buildChildEnv s.environ jd jh, none⟩ : SpawnRecord)) = some rcd := hr
          injection hr2 with hr2
          rw [← hr2]
      · have h3f : s.fs.pathExists t = false := by simpa using h3
        rw [fastqc_eq_of_tool_gone h1 h2 h3f]
        intro rcd hr
        simp at hr

/-- C9 witness: the amended statement applied to the concrete successful
run's spawn record. -/
theorem fastqc_C9_witness : rcdW1.timeout = none :=
  fastqc_C9_amended sW1 "/data/sample.fastq" true rcdW1 rfl

/-! ## Claim C6 -/

/-- C6 counterexample: an attempt whose captured output carries the
environment-restriction marker is not recorded as environment-restricted —
the result is identical, field for field, to the result of the same run with
a benign output except for the verbatim output text, no error or status
field distinguishes it, and no further strategy exists to continue with (the
brew attempt is the last spawn).  This refutes the claimed marker-dependent
recording and continuation behaviour of `install_fastqc`. -/
theorem install_fastqc_C6_counterexample :
    specIsRestricted (((install_fastqc instW6a).1.fastqc_install_output).getD "") = true ∧
    (install_fastqc instW6a).1.fastqc_installed = false ∧
    (install_fastqc instW6a).1.error = none ∧
    { (install_fastqc instW6a).1 with fastqc_install_output := none } =
      { (install_fastqc instW6b).1 with fastqc_install_output := none } ∧
    (install_fastqc instW6a).2 = [brewFastqcCmd] := by
  refine ⟨by decide, by decide, by decide, by decide, by decide⟩

/-- C6 amended: `install_fastqc` never inspects captured output — on Darwin,
two runs whose brew invocations complete with different captured outputs
(marker or not) produce results agreeing on every status field, the same
spawn sequence, and the same error field; and whenever FastQC is absent the
FastQC installation step is attempted regardless of how the earlier Java
step fared. -/
theorem install_fastqc_C6_amended (wj1 wj2 wf1 wf2 : Option String)
    (o1 e1 o2 e2 o1' e1' o2' e2' : String) :
    ((install_fastqc ⟨"Darwin", wj1, wj2, wf1, wf2, .ok (o1, e1), .ok (o2, e2)⟩).1.java_installed =
      (install_fastqc ⟨"Darwin", wj1, wj2, wf1, wf2, .ok (o1', e1'), .ok (o2', e2')⟩).1.java_installed ∧
     (install_fastqc ⟨"Darwin", wj1, wj2, wf1, wf2, .ok (o1, e1), .ok (o2, e2)⟩).1.java_install_attempted =
      (install_fastqc ⟨"Darwin", wj1, wj2, wf1, wf2, .ok (o1', e1'), .ok (o2', e2')⟩).1.java_install_attempted ∧
     (install_fastqc ⟨"Darwin", wj1, wj2, wf1, wf2, .ok (o1, e1), .ok (o2, e2)⟩).1.fastqc_installed =
      (install_fastqc ⟨"Darwin", wj1, wj2, wf1, wf2, .ok (o1', e1'), .ok (o2', e2')⟩).1.fastqc_installed ∧
     (install_fastqc ⟨"Darwin", wj1, wj2, wf1, wf2, .ok (o1, e1), .ok (o2, e2)⟩).1.fastqc_install_attempted =
      (install_fastqc ⟨"Darwin", wj1, wj2, wf1, wf2, .ok (o1', e1'), .ok (o2', e2')⟩).1.fastqc_install_attempted ∧
     (install_fastqc ⟨"Darwin", wj1, wj2, wf1, wf2, .ok (o1, e1), .ok (o2, e2)⟩).1.error =
      (install_fastqc ⟨"Darwin", wj1, wj2, wf1, wf2, .ok (o1', e1'), .ok (o2', e2')⟩).1.error ∧
     (install_fastqc ⟨"Darwin", wj1, wj2, wf1, wf2, .ok (o1, e1), .ok (o2, e2)⟩).2 =
      (install_fastqc ⟨"Darwin", wj1, wj2, wf1, wf2, .ok (o1', e1'), .ok (o2', e2')⟩).2) ∧
    (wf1 = none →
      (install_fastqc ⟨"Darwin", wj1, wj2, wf1, wf2, .ok (o1, e1), .ok (o2, e2)⟩).1.fastqc_install_attempted = true) := by
  cases wj1 <;> cases wf1 <;> cases wj2 <;> cases wf2 <;>
    simp [install_fastqc, installFastqcStep2]

/-- C6 witness: the continuation clause of the amended statement at the
restricted-output world: the FastQC step is attempted. -/
theorem install_fastqc_C6_witness :
    (install_fastqc instW6a).1.fastqc_install_attempted = true :=
  (install_fastqc_C6_amended (some "/usr/bin/java") none none none
    "" "" "" "error: externally-managed-environment\n" "" "" "" "ok").2 rfl

/-! ## Claim C7 -/

/-- C7 counterexample: on a non-Darwin platform with both tools already
present, `install_fastqc` spawns nothing but its `error` field is `none`,
not an unsupported-platform message — refuting the claim that every
non-Darwin call returns such a message. -/
theorem install_fastqc_C7_counterexample :
    instW7.system ≠ "Darwin" ∧
    (install_fastqc instW7).1.error = none ∧
    (install_fastqc instW7).2 = [] :=
  ⟨by decide, by decide, by decide⟩

/-- C7 amended: on every non-Darwin platform no install subprocess is ever
spawned; when Java is missing the error field carries the Java
unsupported-platform message, when Java is present but FastQC is missing it
carries the FastQC unsupported-platform message, and when both are present
it is `none`. -/
theorem install_fastqc_C7_amended (s : InstallState) (h : s.system ≠ "Darwin") :
    (install_fastqc s).2 = [] ∧
    (s.whichJava1 = none → (install_fastqc s).1.error = some javaUnsupportedMsg) ∧
    (s.whichJava1.isSome = true → s.whichFastqc1 = none →
        (install_fastqc s).1.error = some fastqcUnsupportedMsg) ∧
    (s.whichJava1.isSome = true → s.whichFastqc1.isSome = true →
        (install_fastqc s).1.error = none) := by
  obtain ⟨sys, wj1, wj2, wf1, wf2, bj, bf⟩ := s
  cases wj1 <;> cases wf1 <;> simp_all [install_fastqc, installFastqcStep2]

/-- C7 witness: the amended statement at a Linux world with FastQC missing:
no spawn and the FastQC unsupported-platform message. -/
theorem install_fastqc_C7_witness :
    (install_fastqc instW7b).2 = [] ∧
    (install_fastqc instW7b).1.error = some fastqcUnsupportedMsg := by
  have h := install_fastqc_C7_amended instW7b (by decide)
  exact ⟨h.1, h.2.2.1 rfl rfl⟩
